import Mathlib

set_option maxRecDepth 200000

/-!
Verification development for the QuickEx repository.

Part 1 — the Soroban escrow/commitment contract (spec §§3–4.5, §7, §8;
`app/contract/README.md`).  The Rust contract source
(`app/contract/contracts/quickex/src/*.rs`) is not part of the material,
only its README, regression-test document and a PR description are, so the
contract-side definitions below are modelled from the specification, as
their doc comments state.

Part 2 — the TypeScript payment-link parser (`parsePaymentLink`) and the
backend Stellar-amount validator, which are present in source form and are
embedded directly.

Machine bytes are `Nat` values below 256, machine words are `Nat` values
below 2^32 (kept in range with explicit `% 2^32`), and `i128` amounts are
`Int` with explicit two's-complement reduction where they are serialized.
-/

/-! ## Byte sequences and 32-bit words -/

/-- A byte string: a list of naturals, each intended to be < 256. -/
abbrev Bytes := List Nat

/-- Reduce to a 32-bit word. -/
def w32 (n : Nat) : Nat := n % 4294967296

/-- 32-bit exclusive-or. -/
def xor32 (x y : Nat) : Nat := x ^^^ y

/-- 32-bit and. -/
def and32 (x y : Nat) : Nat := x &&& y

/-- 32-bit complement (argument must already be < 2^32). -/
def not32 (x : Nat) : Nat := 4294967295 - w32 x

/-- Rotate a 32-bit word right by `n` bits. -/
def rotr32 (n x : Nat) : Nat := x / 2 ^ n + x % 2 ^ n * 2 ^ (32 - n)

/-- Shift a 32-bit word right by `n` bits. -/
def shr32 (n x : Nat) : Nat := x / 2 ^ n

/-! ## SHA-256 (FIPS 180-4), over byte lists -/

/-- SHA-256 round constants. -/
def shaK : List Nat :=
  [1116352408, 1899447441, 3049323471, 3921009573, 961987163, 1508970993,
   2453635748, 2870763221, 3624381080, 310598401, 607225278, 1426881987,
   1925078388, 2162078206, 2614888103, 3248222580, 3835390401, 4022224774,
   264347078, 604807628, 770255983, 1249150122, 1555081692, 1996064986,
   2554220882, 2821834349, 2952996808, 3210313671, 3336571891, 3584528711,
   113926993, 338241895, 666307205, 773529912, 1294757372, 1396182291,
   1695183700, 1986661051, 2177026350, 2456956037, 2730485921, 2820302411,
   3259730800, 3345764771, 3516065817, 3600352804, 4094571909, 275423344,
   430227734, 506948616, 659060556, 883997877, 958139571, 1322822218,
   1537002063, 1747873779, 1955562222, 2024104815, 2227730452, 2361852424,
   2428436474, 2756734187, 3204031479, 3329325298]

/-- The eight 32-bit words of the SHA-256 hash state. -/
structure Hash8 where
  a : Nat
  b : Nat
  c : Nat
  d : Nat
  e : Nat
  f : Nat
  g : Nat
  h : Nat
deriving DecidableEq

/-- SHA-256 initial hash value. -/
def shaH0 : Hash8 where
  a := 1779033703
  b := 3144134277
  c := 1013904242
  d := 2773480762
  e := 1359893119
  f := 2600822924
  g := 528734635
  h := 1541459225

/-- The `Ch` function of SHA-256. -/
def shaCh (e f g : Nat) : Nat := xor32 (and32 e f) (and32 (not32 e) g)

/-- The `Maj` function of SHA-256. -/
def shaMaj (a b c : Nat) : Nat := xor32 (xor32 (and32 a b) (and32 a c)) (and32 b c)

/-- The big Σ₀ function of SHA-256. -/
def bigSigma0 (x : Nat) : Nat := xor32 (xor32 (rotr32 2 x) (rotr32 13 x)) (rotr32 22 x)

/-- The big Σ₁ function of SHA-256. -/
def bigSigma1 (x : Nat) : Nat := xor32 (xor32 (rotr32 6 x) (rotr32 11 x)) (rotr32 25 x)

/-- The small σ₀ function of SHA-256. -/
def smallSigma0 (x : Nat) : Nat := xor32 (xor32 (rotr32 7 x) (rotr32 18 x)) (shr32 3 x)

/-- The small σ₁ function of SHA-256. -/
def smallSigma1 (x : Nat) : Nat := xor32 (xor32 (rotr32 17 x) (rotr32 19 x)) (shr32 10 x)

/-- Extend a 16-word message block by `k` further schedule words. -/
def extendW : List Nat → Nat → List Nat
  | ws, 0 => ws
  | ws, k + 1 =>
    let n := ws.length
    let w := w32 (smallSigma1 (ws.getD (n - 2) 0) + ws.getD (n - 7) 0 +
      smallSigma0 (ws.getD (n - 15) 0) + ws.getD (n - 16) 0)
    extendW (ws ++ [w]) k

/-- One SHA-256 compression round. -/
def shaRound (st : Hash8) (k w : Nat) : Hash8 :=
  let t1 := w32 (st.h + bigSigma1 st.e + shaCh st.e st.f st.g + k + w)
  let t2 := w32 (bigSigma0 st.a + shaMaj st.a st.b st.c)
  ⟨w32 (t1 + t2), st.a, st.b, st.c, w32 (st.d + t1), st.e, st.f, st.g⟩

/-- Fold the 64 compression rounds over the paired constants and schedule. -/
def shaRounds (st : Hash8) : List (Nat × Nat) → Hash8
  | [] => st
  | (k, w) :: rest => shaRounds (shaRound st k w) rest

/-- Compress one 16-word block into the running hash state. -/
def shaCompress (h0 : Hash8) (block : List Nat) : Hash8 :=
  let ws := extendW block 48
  let st := shaRounds h0 (shaK.zip ws)
  ⟨w32 (h0.a + st.a), w32 (h0.b + st.b), w32 (h0.c + st.c), w32 (h0.d + st.d),
   w32 (h0.e + st.e), w32 (h0.f + st.f), w32 (h0.g + st.g), w32 (h0.h + st.h)⟩

/-- Big-endian bytes of a 32-bit word. -/
def word32Bytes (n : Nat) : Bytes :=
  [n / 16777216 % 256, n / 65536 % 256, n / 256 % 256, n % 256]

/-- Big-endian 8-byte encoding of a 64-bit length value. -/
def len8BE (n : Nat) : Bytes :=
  [n / 2 ^ 56 % 256, n / 2 ^ 48 % 256, n / 2 ^ 40 % 256, n / 2 ^ 32 % 256,
   n / 2 ^ 24 % 256, n / 2 ^ 16 % 256, n / 2 ^ 8 % 256, n % 256]

/-- Pack padded message bytes into big-endian 32-bit words, four bytes at a time. -/
def bytesToWordsBE : Bytes → List Nat
  | b0 :: b1 :: b2 :: b3 :: rest => (b0 * 16777216 + b1 * 65536 + b2 * 256 + b3) :: bytesToWordsBE rest
  | _ => []

/-- Split a word list into 16-word blocks; `fuel` bounds the recursion depth. -/
def chunk16 : Nat → List Nat → List (List Nat)
  | 0, _ => []
  | _, [] => []
  | fuel + 1, ws => ws.take 16 :: chunk16 fuel (ws.drop 16)

/-- SHA-256 padding: append `0x80`, zeros to 56 mod 64, then the bit length. -/
def padMessage (m : Bytes) : Bytes :=
  m ++ [128] ++ List.replicate ((119 - m.length % 64) % 64) 0 ++ len8BE (8 * m.length)

/-- SHA-256 of a byte string, as a 32-byte string. -/
def sha256 (m : Bytes) : Bytes :=
  let padded := padMessage m
  let blocks := chunk16 padded.length (bytesToWordsBE padded)
  let hf := blocks.foldl shaCompress shaH0
  word32Bytes hf.a ++ word32Bytes hf.b ++ word32Bytes hf.c ++ word32Bytes hf.d ++
    word32Bytes hf.e ++ word32Bytes hf.f ++ word32Bytes hf.g ++ word32Bytes hf.h

/-! ## Addresses and canonical serialization -/

/-- A Soroban address value, modelled by an abstract numeric identity. -/
structure Address where
  id : Nat
deriving DecidableEq

/-- Minimal big-endian byte digits of a natural number; `fuel` bounds recursion. -/
def natBEAux : Nat → Nat → Bytes
  | 0, _ => []
  | fuel + 1, n => if n = 0 then [] else natBEAux fuel (n / 256) ++ [n % 256]

/-- Minimal big-endian byte encoding of a natural number (`[0]` for zero). -/
def natToBEMin (n : Nat) : Bytes :=
  if n = 0 then [0] else natBEAux n n

/-- Modelled from the spec: the canonical external (XDR) serialization of an
`Address` — "a stable, self-describing byte encoding of the address type" —
modelled as the length-prefixed big-endian bytes of the address identity.
The Rust `commitment.rs` holding the real XDR call is not in the source
material. -/
def serializeAddress (a : Address) : Bytes :=
  let p := natToBEMin a.id
  p.length :: p

/-- Two's-complement reduction of an `i128` amount to a natural below 2^128. -/
def i128TwosComplement (a : Int) : Nat := (a % (2 : Int) ^ 128).toNat

/-- Modelled from the spec: the fixed 16-byte big-endian two's-complement
serialization of an `i128` amount. -/
def i128ToBytesBE (a : Int) : Bytes :=
  let n := i128TwosComplement a
  [n / 2 ^ 120 % 256, n / 2 ^ 112 % 256, n / 2 ^ 104 % 256, n / 2 ^ 96 % 256,
   n / 2 ^ 88 % 256, n / 2 ^ 80 % 256, n / 2 ^ 72 % 256, n / 2 ^ 64 % 256,
   n / 2 ^ 56 % 256, n / 2 ^ 48 % 256, n / 2 ^ 40 % 256, n / 2 ^ 32 % 256,
   n / 2 ^ 24 % 256, n / 2 ^ 16 % 256, n / 2 ^ 8 % 256, n % 256]

/-! ## Contract error taxonomy (spec §7) -/

/-- Modelled from the spec: the closed error taxonomy of the contract.
`EscrowNotExpired` is the one variant the spec leaves unnamed (a refund
attempted before the expiry threshold); every other variant is named in §7. -/
inductive ContractError where
  | InvalidAmount
  | InvalidSalt
  | EscrowAlreadyExists
  | EscrowNotFound
  | EscrowNotPending
  | Unauthorized
  | AlreadyInitialized
  | ContractPaused
  | EscrowNotExpired
deriving DecidableEq

deriving instance DecidableEq for Except

/-! ## Commitment Engine (spec §4.1, `create_amount_commitment` /
`verify_amount_commitment` in `app/contract/README.md`) -/

/-- Salt length cap.  The spec and the commitment-hardening PR description
(`src/unnamed/part_000`) fix it at 1024 bytes; the README's table mentions a
tighter 256-byte deployment policy, but the enforced engine limit is 1024. -/
def MAX_SALT_LEN : Nat := 1024

/-- Modelled from the spec: `create_commitment(owner, amount, salt)`.
Rejects a negative amount (`InvalidAmount`) and an oversized salt
(`InvalidSalt`), otherwise returns
`SHA256(owner_bytes || amount_bytes || salt)`, a 32-byte digest. -/
def create_commitment (owner : Address) (amount : Int) (salt : Bytes) :
    Except ContractError Bytes :=
  if amount < 0 then .error .InvalidAmount
  else if MAX_SALT_LEN < salt.length then .error .InvalidSalt
  else .ok (sha256 (serializeAddress owner ++ i128ToBytesBE amount ++ salt))

/-- Modelled from the spec: `verify_commitment(commitment, owner, amount, salt)`
recomputes the commitment and compares byte-for-byte; any recomputation
error yields `false`, never an error. -/
def verify_commitment (commitment : Bytes) (owner : Address) (amount : Int)
    (salt : Bytes) : Bool :=
  match create_commitment owner amount salt with
  | .ok d => decide (d = commitment)
  | .error _ => false

/-! ## Data model and storage layer (spec §3, §4.2) -/

/-- The three lifecycle states of an escrow entry. -/
inductive EscrowStatus where
  | Pending
  | Spent
  | Expired
deriving DecidableEq

/-- An escrow record, keyed in storage by its 32-byte commitment. -/
structure EscrowEntry where
  token : Address
  amount : Int
  owner : Address
  status : EscrowStatus
  created_at : Nat
deriving DecidableEq

/-- Modelled from the spec: the persistent contract storage — escrows keyed
by commitment, the escrow counter, the admin singleton, the paused flag —
plus the ledger timestamp visible to the current invocation. -/
structure ContractState where
  escrows : Bytes → Option EscrowEntry
  counter : Nat
  admin : Option Address
  paused : Bool
  now : Nat

/-- A contract state with empty storage. -/
def emptyState : ContractState :=
  { escrows := fun _ => none, counter := 0, admin := none, paused := false, now := 0 }

/-- Storage accessor: look up an escrow entry by commitment. -/
def get_escrow (st : ContractState) (commitment : Bytes) : Option EscrowEntry :=
  st.escrows commitment

/-- Storage accessor: store an escrow entry under a commitment. -/
def put_escrow (st : ContractState) (commitment : Bytes) (entry : EscrowEntry) :
    ContractState :=
  { st with escrows := fun k => if k = commitment then some entry else st.escrows k }

/-- Storage accessor: does an escrow entry exist at this commitment? -/
def has_escrow (st : ContractState) (commitment : Bytes) : Bool :=
  (st.escrows commitment).isSome

/-! ## Escrow state machine (spec §4.3)

Each operation returns the successor state paired with its result; an error
result is always paired with the unchanged input state, mirroring the
ledger's all-or-nothing transaction semantics.  Caller authorization
(`require_auth`) is host-checked before the body runs and is outside the
embedding; the `Unauthorized` paths that compare a caller against stored
state are modelled explicitly. -/

/-- Modelled from the spec: `deposit(token, amount, owner, salt)`.  Rejects
when paused, rejects non-positive amounts, computes the commitment, rejects
an existing entry at that key, then stores a new `Pending` entry and
increments the counter, returning the commitment. -/
def deposit (token : Address) (amount : Int) (owner : Address) (salt : Bytes)
    (st : ContractState) : ContractState × Except ContractError Bytes :=
  if st.paused then (st, .error .ContractPaused)
  else if amount ≤ 0 then (st, .error .InvalidAmount)
  else
    match create_commitment owner amount salt with
    | .error e => (st, .error e)
    | .ok c =>
      if has_escrow st c then (st, .error .EscrowAlreadyExists)
      else
        ({ put_escrow st c
            { token := token, amount := amount, owner := owner,
              status := .Pending, created_at := st.now } with
           counter := st.counter + 1 }, .ok c)

/-- Modelled from the spec: `deposit_with_commitment(from, token, amount,
commitment)` — the caller supplies a pre-computed commitment; the operation
must still enforce `amount > 0` and the absence of a live entry at the key. -/
def deposit_with_commitment («from» : Address) (token : Address) (amount : Int)
    (commitment : Bytes) (st : ContractState) :
    ContractState × Except ContractError Bytes :=
  if st.paused then (st, .error .ContractPaused)
  else if amount ≤ 0 then (st, .error .InvalidAmount)
  else if has_escrow st commitment then (st, .error .EscrowAlreadyExists)
  else
    ({ put_escrow st commitment
        { token := token, amount := amount, owner := «from»,
          status := .Pending, created_at := st.now } with
       counter := st.counter + 1 }, .ok commitment)

/-- Modelled from the spec: `withdraw(to, amount, salt)` recomputes the
commitment from the caller-supplied triple, requires an existing `Pending`
entry at that key, transfers and marks it `Spent`.  Expiry is modelled as an
explicit state write performed by `refund` (the spec leaves the choice open),
so `withdraw` checks the stored status only. -/
def withdraw («to» : Address) (amount : Int) (salt : Bytes) (st : ContractState) :
    ContractState × Except ContractError Unit :=
  if st.paused then (st, .error .ContractPaused)
  else
    match create_commitment «to» amount salt with
    | .error e => (st, .error e)
    | .ok c =>
      match get_escrow st c with
      | none => (st, .error .EscrowNotFound)
      | some entry =>
        if entry.status = .Pending then
          (put_escrow st c { entry with status := .Spent }, .ok ())
        else (st, .error .EscrowNotPending)

/-- Modelled from the spec: the expiry policy threshold.  The spec fixes no
numeric value (deployment policy); any fixed constant supports the claims. -/
def EXPIRY_THRESHOLD : Nat := 86400

/-- Modelled from the spec: the refund path — requires an existing `Pending`
entry whose expiry threshold has been crossed, marks it `Expired` (terminal)
and returns the funds to the stored owner. -/
def refund (commitment : Bytes) (st : ContractState) :
    ContractState × Except ContractError Unit :=
  if st.paused then (st, .error .ContractPaused)
  else
    match get_escrow st commitment with
    | none => (st, .error .EscrowNotFound)
    | some entry =>
      if entry.status = .Pending then
        if entry.created_at + EXPIRY_THRESHOLD ≤ st.now then
          (put_escrow st commitment { entry with status := .Expired }, .ok ())
        else (st, .error .EscrowNotExpired)
      else (st, .error .EscrowNotPending)

/-! ## Admin control plane (spec §4.5) -/

/-- Modelled from the spec: the initialize(admin) entry point (renamed here
because its source name is a reserved word in Lean) — callable exactly once;
sets the admin, rejects a second call with `AlreadyInitialized`. -/
def initializeContract (admin : Address) (st : ContractState) :
    ContractState × Except ContractError Unit :=
  match st.admin with
  | some _ => (st, .error .AlreadyInitialized)
  | none => ({ st with admin := some admin }, .ok ())

/-- Modelled from the spec: `set_paused(caller, new_state)` — requires the
caller to equal the stored admin, then flips the paused flag. -/
def set_paused (caller : Address) (new_state : Bool) (st : ContractState) :
    ContractState × Except ContractError Unit :=
  match st.admin with
  | none => (st, .error .Unauthorized)
  | some adm =>
    if caller = adm then ({ st with paused := new_state }, .ok ())
    else (st, .error .Unauthorized)

/-! ## Invocations as a step relation

One exposed mutating operation per ledger transaction; `runOps` executes a
sequence of invocations, keeping each call's successor state (errors leave
the state unchanged by construction of the operations). -/

/-- One external invocation of a state-mutating contract operation. -/
inductive Op where
  | opDeposit (token : Address) (amount : Int) (owner : Address) (salt : Bytes)
  | opDepositWithCommitment («from» : Address) (token : Address) (amount : Int)
      (commitment : Bytes)
  | opWithdraw («to» : Address) (amount : Int) (salt : Bytes)
  | opRefund (commitment : Bytes)
  | opInitialize (admin : Address)
  | opSetPaused (caller : Address) (new_state : Bool)

/-- Execute one invocation, returning the successor state and the result. -/
def step (st : ContractState) : Op → ContractState × Except ContractError Unit
  | .opDeposit token amount owner salt =>
    let r := deposit token amount owner salt st
    (r.1, r.2.map fun _ => ())
  | .opDepositWithCommitment f token amount commitment =>
    let r := deposit_with_commitment f token amount commitment st
    (r.1, r.2.map fun _ => ())
  | .opWithdraw t amount salt => withdraw t amount salt st
  | .opRefund commitment => refund commitment st
  | .opInitialize admin => initializeContract admin st
  | .opSetPaused caller b => set_paused caller b st

/-- Run a sequence of invocations from a state. -/
def runOps (st : ContractState) (ops : List Op) : ContractState :=
  ops.foldl (fun s op => (step s op).1) st

/-! ## JavaScript value model (for the TypeScript embeddings)

IEEE-754 doubles are exact rationals, so finite JS numbers are modelled as
rationals together with the three special values; comparison of two doubles
agrees with comparison of the rationals they denote. -/

/-- A JavaScript number. -/
inductive JSNum where
  | nan
  | posInf
  | negInf
  | fin (q : ℚ)
deriving DecidableEq

/-- `Number.isNaN` / `isNaN` on a number value. -/
def jsIsNaN : JSNum → Bool
  | .nan => true
  | _ => false

/-- The JS `<=` comparison on numbers: false whenever either side is NaN. -/
def jsLe : JSNum → JSNum → Bool
  | .nan, _ => false
  | _, .nan => false
  | .negInf, _ => true
  | _, .posInf => true
  | .posInf, _ => false
  | .fin _, .negInf => false
  | .fin a, .fin b => decide (a ≤ b)

/-- The JS `<` comparison on numbers: false whenever either side is NaN. -/
def jsLt : JSNum → JSNum → Bool
  | .nan, _ => false
  | _, .nan => false
  | .posInf, _ => false
  | _, .negInf => false
  | .negInf, _ => true
  | .fin _, .posInf => true
  | .fin a, .fin b => decide (a < b)

/-- A JavaScript value, as far as `typeof` distinguishes what the embedded
validator inspects. -/
inductive JSValue where
  | num (n : JSNum)
  | str (s : String)
  | boolean (b : Bool)
  | nullV
  | undef
deriving DecidableEq

/-! ## Backend Stellar-amount validator
(`app/backend/src/dto/validators/stellar-amount.validator.ts`) -/

/-- `STELLAR_AMOUNT.MIN` (0.0000001). -/
def STELLAR_AMOUNT_MIN : ℚ := mkRat 1 10000000

/-- `STELLAR_AMOUNT.MAX` (1000000). -/
def STELLAR_AMOUNT_MAX : ℚ := 1000000

/-- `IsStellarAmountConstraint.validate(amount)`: false unless the value is
a non-NaN number between `STELLAR_AMOUNT.MIN` and `STELLAR_AMOUNT.MAX`. -/
def stellarAmountValidate (amount : JSValue) : Bool :=
  match amount with
  | .num n =>
    if jsIsNaN n then false
    else jsLe (.fin STELLAR_AMOUNT_MIN) n && jsLe n (.fin STELLAR_AMOUNT_MAX)
  | _ => false

/-! ## Payment-link parser (`parsePaymentLink`, `src/unnamed/part_036`)

The parser calls into the host platform: the WHATWG `URL` /
`URLSearchParams` classes and the ECMAScript `Number`, `toFixed`,
`decodeURIComponent` built-ins.  Those built-ins are embedded below on the
fragment of their behavior the parser can reach (ASCII input; no userinfo,
port or IP-address forms in the host component; no legacy hex/octal numeric
literals), each with a note on what is elided. -/

/-- Character list of lowercase conversion (ASCII, as produced by
`String.prototype.toLowerCase` on ASCII input). -/
def toLowerChar (c : Char) : Char :=
  if 'A' ≤ c ∧ c ≤ 'Z' then Char.ofNat (c.toNat + 32) else c

/-- Character list of uppercase conversion (ASCII, as produced by
`String.prototype.toUpperCase` on ASCII input). -/
def toUpperChar (c : Char) : Char :=
  if 'a' ≤ c ∧ c ≤ 'z' then Char.ofNat (c.toNat - 32) else c

/-- JS whitespace test for `trim` (ASCII subset). -/
def isJsSpace (c : Char) : Bool :=
  c = ' ' ∨ c = '\t' ∨ c = '\n' ∨ c = '\r'

/-- `String.prototype.trim` on a character list. -/
def trimList (cs : List Char) : List Char :=
  ((cs.dropWhile isJsSpace).reverse.dropWhile isJsSpace).reverse

/-- Split a character list at every occurrence of `sep`. -/
def splitOnChar (sep : Char) (cs : List Char) : List (List Char) :=
  cs.foldr
    (fun c acc =>
      match acc with
      | [] => [[c]]
      | g :: rest => if c = sep then [] :: g :: rest else (c :: g) :: rest)
    [[]]

/-- Split a character list at the first character satisfying `p`, returning
the prefix and the remainder (which starts with the matching character). -/
def takeUntil (p : Char → Bool) : List Char → List Char × List Char
  | [] => ([], [])
  | c :: rest =>
    if p c then ([], c :: rest)
    else
      let r := takeUntil p rest
      (c :: r.1, r.2)

/-- Hexadecimal digit value. -/
def hexVal? (c : Char) : Option Nat :=
  if '0' ≤ c ∧ c ≤ '9' then some (c.toNat - 48)
  else if 'a' ≤ c ∧ c ≤ 'f' then some (c.toNat - 87)
  else if 'A' ≤ c ∧ c ≤ 'F' then some (c.toNat - 70)
  else none

/-- Byte value of a two-hex-digit pair. -/
def hexPair? (a b : Char) : Option Nat :=
  match hexVal? a, hexVal? b with
  | some x, some y => some (x * 16 + y)
  | _, _ => none

/-- Percent-decoding as performed by `URLSearchParams`
(`application/x-www-form-urlencoded`): `+` becomes a space, a valid `%XY`
pair becomes the byte's character, anything malformed is copied verbatim.
Multi-byte UTF-8 reassembly is elided (the parser's inputs of interest are
ASCII). -/
def formDecodeChars : List Char → List Char
  | [] => []
  | '+' :: rest => ' ' :: formDecodeChars rest
  | '%' :: a :: b :: rest =>
    match hexPair? a b with
    | some byte => Char.ofNat byte :: formDecodeChars rest
    | none => '%' :: formDecodeChars (a :: b :: rest)
  | c :: rest => c :: formDecodeChars rest

/-- `URLSearchParams.prototype.get`: parse the query into name/value pairs
(splitting on `&`, then at the first `=`, form-decoding both halves) and
return the first value stored under `key`. -/
def searchParamsGet (query : List Char) (key : List Char) : Option (List Char) :=
  let pairs := ((splitOnChar '&' query).filter (fun s => !s.isEmpty)).map fun seg =>
    let nv := takeUntil (fun c => c = '=') seg
    (formDecodeChars nv.1, formDecodeChars (match nv.2 with | [] => [] | _ :: v => v))
  (pairs.find? fun p => decide (p.1 = key)).map (·.2)

/-- ASCII alphabetic test. -/
def isAsciiAlpha (c : Char) : Bool :=
  ('a' ≤ c ∧ c ≤ 'z') ∨ ('A' ≤ c ∧ c ≤ 'Z')

/-- ASCII digit test. -/
def isAsciiDigit (c : Char) : Bool :=
  '0' ≤ c ∧ c ≤ '9'

/-- Characters allowed after the first character of a URL scheme. -/
def isSchemeChar (c : Char) : Bool :=
  isAsciiAlpha c ∨ isAsciiDigit c ∨ c = '+' ∨ c = '-' ∨ c = '.'

/-- The components of a parsed URL that `parsePaymentLink` reads. -/
structure ModelURL where
  protocol : String
  hostname : String
  pathname : String
  query : List Char
deriving DecidableEq

/-- The WHATWG `new URL(raw)` constructor, on the fragment of its behavior
the parser can reach: a scheme followed by `//authority/path?query` (the
authority is taken as the hostname — userinfo, ports and IP forms are
elided; special-scheme hostnames are lowercased, opaque hostnames of
non-special schemes are preserved) or an opaque `scheme:path?query`.
`none` models the constructor throwing `TypeError`. -/
def parseURLM (raw : String) : Option ModelURL :=
  let cs := raw.toList
  let sr := takeUntil (fun c => c = ':') cs
  match sr.2 with
  | ':' :: afterColon =>
    if sr.1 ≠ [] ∧ isAsciiAlpha (sr.1.headD ' ') ∧ sr.1.all isSchemeChar then
      let scheme := sr.1.map toLowerChar
      let special := scheme = "http".toList ∨ scheme = "https".toList
      let noFrag := (takeUntil (fun c => c = '#') afterColon).1
      match noFrag with
      | '/' :: '/' :: afterSlashes =>
        let ar := takeUntil (fun c => c = '/' ∨ c = '?') afterSlashes
        if special ∧ ar.1 = [] then none
        else
          let pq := takeUntil (fun c => c = '?') ar.2
          some { protocol := String.mk (scheme ++ [':'])
                 hostname := String.mk (if special then ar.1.map toLowerChar else ar.1)
                 pathname := String.mk pq.1
                 query := match pq.2 with | [] => [] | _ :: qs => qs }
      | opaquePath =>
        let pq := takeUntil (fun c => c = '?') opaquePath
        some { protocol := String.mk (scheme ++ [':'])
               hostname := ""
               pathname := String.mk pq.1
               query := match pq.2 with | [] => [] | _ :: qs => qs }
    else none
  | _ => none

/-- Constants of `src/unnamed/part_036`. -/
def QUICKEX_HOSTS : List String := ["quickex.to", "www.quickex.to"]

/-- The custom URL scheme accepted by the parser. -/
def QUICKEX_SCHEME : String := "quickex"

/-- The asset whitelist. -/
def ASSET_WHITELIST : List String := ["XLM", "USDC", "AQUA", "yXLM"]

/-- `AMOUNT_MIN` (0.0000001). -/
def AMOUNT_MIN : ℚ := mkRat 1 10000000

/-- `AMOUNT_MAX` (1000000). -/
def AMOUNT_MAX : ℚ := 1000000

/-- `MEMO_MAX_LENGTH`. -/
def MEMO_MAX_LENGTH : Nat := 28

/-- `USERNAME_PATTERN`: `[a-z0-9_]`. -/
def isUsernameChar (c : Char) : Bool :=
  ('a' ≤ c ∧ c ≤ 'z') ∨ isAsciiDigit c ∨ c = '_'

/-- Test of the anchored pattern `^[a-z0-9_]{3,32}$`. -/
def usernameMatches (s : String) : Bool :=
  3 ≤ s.toList.length ∧ s.toList.length ≤ 32 ∧ s.toList.all isUsernameChar

/-- Parse a run of decimal digits, returning value, digit count and rest. -/
def scanDigits : List Char → Nat → Nat → Nat × Nat × List Char
  | c :: rest, acc, cnt =>
    if isAsciiDigit c then scanDigits rest (acc * 10 + (c.toNat - 48)) (cnt + 1)
    else (acc, cnt, c :: rest)
  | [], acc, cnt => (acc, cnt, [])

/-- Exact rational addition, written with `mkRat` so that it evaluates by
kernel reduction. -/
def ratAdd (a b : ℚ) : ℚ := mkRat (a.num * b.den + b.num * a.den) (a.den * b.den)

/-- Exact rational negation. -/
def ratNeg (a : ℚ) : ℚ := mkRat (-a.num) a.den

/-- Multiply an exact rational by the integer power `10 ^ e` (`e` may be
negative). -/
def ratMulPow10 (a : ℚ) (pos : Bool) (e : Nat) : ℚ :=
  if pos then mkRat (a.num * Int.ofNat (10 ^ e)) a.den
  else mkRat a.num (a.den * 10 ^ e)

/-- Parse an unsigned `StrDecimalLiteral`: digits, an optional fraction and
an optional exponent; `none` is NaN. -/
def parseDecimal (cs : List Char) : Option ℚ :=
  let ir := scanDigits cs 0 0
  let intVal : ℚ := mkRat ir.1 1
  let intCnt := ir.2.1
  let afterFrac :=
    match ir.2.2 with
    | '.' :: rest =>
      let fr := scanDigits rest 0 0
      some (ratAdd intVal (mkRat fr.1 (10 ^ fr.2.1)), intCnt + fr.2.1, fr.2.2)
    | other => some (intVal, intCnt, other)
  match afterFrac with
  | some (v, digits, rest) =>
    if digits = 0 then none
    else
      match rest with
      | [] => some v
      | 'e' :: rest2 => parseExponent v rest2
      | 'E' :: rest2 => parseExponent v rest2
      | _ => none
  | none => none
where
  /-- Parse the signed exponent part after `e`. -/
  parseExponent (v : ℚ) (cs : List Char) : Option ℚ :=
    let signed :=
      match cs with
      | '+' :: rest => some (true, rest)
      | '-' :: rest => some (false, rest)
      | other => some (true, other)
    match signed with
    | some (pos, ds) =>
      let er := scanDigits ds 0 0
      if er.2.1 = 0 ∨ er.2.2 ≠ [] then none
      else some (ratMulPow10 v pos er.1)
    | none => none

/-- The ECMAScript `Number(string)` conversion (`StringToNumber`): trimmed
empty input is `+0`, `Infinity` forms and signed decimal literals are
recognized, anything else is NaN.  Legacy `0x`/`0o`/`0b` literals are
elided. -/
def jsNumberM (cs : List Char) : JSNum :=
  let t := trimList cs
  if t = [] then .fin 0
  else
    let signedBody :=
      match t with
      | '+' :: rest => (false, rest)
      | '-' :: rest => (true, rest)
      | other => (false, other)
    if signedBody.2 = "Infinity".toList then
      if signedBody.1 then .negInf else .posInf
    else
      match parseDecimal signedBody.2 with
      | some q => .fin (if signedBody.1 then ratNeg q else q)
      | none => .nan

/-- Decimal digit characters of a natural number; `fuel` bounds recursion. -/
def natDigitsAux : Nat → Nat → List Char
  | 0, _ => []
  | fuel + 1, n =>
    if n = 0 then []
    else natDigitsAux fuel (n / 10) ++ [Char.ofNat (48 + n % 10)]

/-- Decimal rendering of a natural number. -/
def natToChars (n : Nat) : List Char :=
  if n = 0 then ['0'] else natDigitsAux n n

/-- `Number.prototype.toFixed(7)` on a non-negative finite value below 10^21:
round `q·10^7` to the nearest integer (ties away from zero), then print with
seven digits after the decimal point. -/
def toFixed7 (q : ℚ) : String :=
  let n := (2 * q.num * 10000000 + q.den).toNat / (2 * q.den)
  let frac := natToChars (n % 10000000)
  String.mk (natToChars (n / 10000000) ++ ['.'] ++
    List.replicate (7 - frac.length) '0' ++ frac)

/-- A thrown JavaScript exception (the parser can only reach `URIError`,
from `decodeURIComponent`). -/
inductive JSException where
  | uriError
deriving DecidableEq

/-- The ECMAScript `decodeURIComponent` built-in (the `Decode` abstract
operation): every `%` must begin a valid percent escape, escapes above
`0x7F` must form a valid UTF-8 sequence (overlong encodings, surrogates and
out-of-range code points rejected), and any violation throws `URIError`. -/
def decodeURIChars : List Char → Except JSException (List Char)
  | [] => .ok []
  | '%' :: a :: b :: cs =>
    (match hexPair? a b with
     | none => .error .uriError
     | some byte =>
       if byte < 128 then
         (decodeURIChars cs).map fun t => Char.ofNat byte :: t
       else if 194 ≤ byte ∧ byte ≤ 223 then
         match cs with
         | '%' :: c :: d :: cs2 =>
           (match hexPair? c d with
            | some b2 =>
              if 128 ≤ b2 ∧ b2 ≤ 191 then
                (decodeURIChars cs2).map fun t =>
                  Char.ofNat ((byte - 192) * 64 + (b2 - 128)) :: t
              else .error .uriError
            | none => .error .uriError)
         | _ => .error .uriError
       else if 224 ≤ byte ∧ byte ≤ 239 then
         match cs with
         | '%' :: c :: d :: '%' :: e :: f :: cs2 =>
           (match hexPair? c d, hexPair? e f with
            | some b2, some b3 =>
              let cp := (byte - 224) * 4096 + (b2 - 128) * 64 + (b3 - 128)
              if 128 ≤ b2 ∧ b2 ≤ 191 ∧ 128 ≤ b3 ∧ b3 ≤ 191 ∧ 2048 ≤ cp ∧
                  ¬ (55296 ≤ cp ∧ cp ≤ 57343) then
                (decodeURIChars cs2).map fun t => Char.ofNat cp :: t
              else .error .uriError
            | _, _ => .error .uriError)
         | _ => .error .uriError
       else if 240 ≤ byte ∧ byte ≤ 244 then
         match cs with
         | '%' :: c :: d :: '%' :: e :: f :: '%' :: g :: h :: cs2 =>
           (match hexPair? c d, hexPair? e f, hexPair? g h with
            | some b2, some b3, some b4 =>
              let cp := (byte - 240) * 262144 + (b2 - 128) * 4096 +
                (b3 - 128) * 64 + (b4 - 128)
              if 128 ≤ b2 ∧ b2 ≤ 191 ∧ 128 ≤ b3 ∧ b3 ≤ 191 ∧ 128 ≤ b4 ∧
                  b4 ≤ 191 ∧ 65536 ≤ cp ∧ cp ≤ 1114111 then
                (decodeURIChars cs2).map fun t => Char.ofNat cp :: t
              else .error .uriError
            | _, _, _ => .error .uriError)
         | _ => .error .uriError
       else .error .uriError)
  | '%' :: _ => .error .uriError
  | c :: cs => (decodeURIChars cs).map fun t => c :: t

/-- The UTF-16 length of a string (`String.prototype.length`): astral code
points count as two code units. -/
def jsStrLength (cs : List Char) : Nat :=
  (cs.map fun c => if c.toNat < 65536 then 1 else 2).sum

/-- `extractParts(raw)` from `src/unnamed/part_036`: parse the URL, accept
either the `quickex:` scheme (username from the hostname, else the first
path segment) or an `http(s)` URL on a QuickEx host (username from the
first non-empty path segment), and hand back the username with the query. -/
def extractParts (raw : String) : Option (String × List Char) :=
  match parseURLM raw with
  | none => none
  | some url =>
    if url.protocol = QUICKEX_SCHEME ++ ":" then
      let username :=
        if url.hostname ≠ "" then url.hostname
        else String.mk ((splitOnChar '/' (url.pathname.toList.dropWhile (fun c => c = '/'))).headD [])
      if username ≠ "" then some (username, url.query) else none
    else if (url.protocol = "https:" ∨ url.protocol = "http:") ∧
        url.hostname ∈ QUICKEX_HOSTS then
      let segments := (splitOnChar '/' (url.pathname.toList.dropWhile (fun c => c = '/'))).filter
        fun s => !s.isEmpty
      match segments with
      | [] => none
      | s :: _ => some (String.mk s, url.query)
    else none

/-- The result type of `parsePaymentLink` (its declared `ParseResult`). -/
structure PaymentLinkData where
  username : String
  amount : String
  asset : String
  memo : Option String
  privacy : Bool
deriving DecidableEq

/-- `ParseResult`: either a validation failure with a message or the parsed
link data. -/
inductive ParseResult where
  | invalid (error : String)
  | valid (data : PaymentLinkData)
deriving DecidableEq

/-- `parsePaymentLink(raw)` from `src/unnamed/part_036`, embedded together
with its possible uncaught exceptions: a `.error` result models a JavaScript
exception escaping the function (the body has no try/catch around
`decodeURIComponent`), while `.ok` carries the declared `ParseResult`. -/
def parsePaymentLink (raw : String) : Except JSException ParseResult :=
  let trimmed := String.mk (trimList raw.toList)
  if trimmed = "" then .ok (.invalid "Empty link")
  else
    match extractParts trimmed with
    | none => .ok (.invalid "Not a valid QuickEx link")
    | some (username, query) =>
      if ¬ usernameMatches username then
        .ok (.invalid ("Invalid username \"" ++ username ++ "\""))
      else
        match searchParamsGet query "amount".toList with
        | none => .ok (.invalid "Missing amount")
        | some amtChars =>
          if amtChars = [] then .ok (.invalid "Missing amount")
          else
            let amount := jsNumberM amtChars
            if jsIsNaN amount ∨ jsLt amount (.fin AMOUNT_MIN) ∨
                jsLt (.fin AMOUNT_MAX) amount then
              .ok (.invalid "Amount must be between 1e-7 and 1000000")
            else
              let q := match amount with | .fin v => v | _ => 0
              let formattedAmount := toFixed7 q
              let rawAsset :=
                (match searchParamsGet query "asset".toList with
                 | none => "XLM".toList
                 | some v => v).map toUpperChar
              if ¬ String.mk rawAsset ∈ ASSET_WHITELIST then
                .ok (.invalid ("Unsupported asset \"" ++ String.mk rawAsset ++
                  "\". Supported: XLM, USDC, AQUA, yXLM"))
              else
                let finish : Option String → Except JSException ParseResult :=
                  fun memo =>
                    let privacy :=
                      searchParamsGet query "privacy".toList = some "true".toList
                    .ok (.valid ⟨username, formattedAmount, String.mk rawAsset,
                      memo, decide privacy⟩)
                match searchParamsGet query "memo".toList with
                | none => finish none
                | some [] => finish none
                | some rawMemo =>
                  match decodeURIChars rawMemo with
                  | .error e => .error e
                  | .ok decoded =>
                    let d := trimList decoded
                    if MEMO_MAX_LENGTH < jsStrLength d then
                      .ok (.invalid "Memo exceeds 28 characters")
                    else finish (if d ≠ [] then some (String.mk d) else none)

/-! ## Concrete parties used by witnesses and counterexamples -/

/-- A sample address. -/
def alice : Address := ⟨1⟩

/-- A second sample address. -/
def bobAddr : Address := ⟨2⟩

/-- A sample token contract address. -/
def tokenA : Address := ⟨100⟩

/-! ## Basic lemmas about the commitment engine -/

theorem word32Bytes_lt (n b : Nat) (hb : b ∈ word32Bytes n) : b < 256 := by
  simp only [word32Bytes, List.mem_cons, List.not_mem_nil, or_false] at hb
  rcases hb with rfl | rfl | rfl | rfl <;> exact Nat.mod_lt _ (by norm_num)

theorem sha256_length (m : Bytes) : (sha256 m).length = 32 := by
  simp [sha256, word32Bytes]

theorem sha256_bytes_lt (m : Bytes) (b : Nat) (hb : b ∈ sha256 m) : b < 256 := by
  simp only [sha256, List.mem_append] at hb
  rcases hb with ((((((hb | hb) | hb) | hb) | hb) | hb) | hb) | hb <;>
    exact word32Bytes_lt _ _ hb

theorem create_commitment_ok (o : Address) (a : Int) (s : Bytes)
    (ha : ¬ a < 0) (hs : ¬ MAX_SALT_LEN < s.length) :
    create_commitment o a s =
      .ok (sha256 (serializeAddress o ++ i128ToBytesBE a ++ s)) := by
  simp [create_commitment, ha, hs]

theorem create_commitment_isOk (o : Address) (a : Int) (s : Bytes) (c : Bytes)
    (h : create_commitment o a s = .ok c) :
    ¬ a < 0 ∧ ¬ MAX_SALT_LEN < s.length ∧
      c = sha256 (serializeAddress o ++ i128ToBytesBE a ++ s) := by
  by_cases ha : a < 0
  · simp [create_commitment, ha] at h
  · by_cases hs : MAX_SALT_LEN < s.length
    · simp [create_commitment, ha, hs] at h
    · refine ⟨ha, hs, ?_⟩
      rw [create_commitment_ok o a s ha hs] at h
      exact (Except.ok.injEq _ _ ▸ h).symm

/-- C3: `create_commitment(owner, amount, salt)` is a pure deterministic
function whose value is the SHA-256 hash of the concatenation of the
canonical serialization of the owner, the fixed 16-byte big-endian
two's-complement encoding of the amount, and the salt bytes; the digest has
exactly 32 bytes for every valid input, and identical inputs always yield an
identical digest. -/
theorem create_commitment_deterministic_sha256 (o : Address) (a : Int) (s : Bytes)
    (ha : 0 ≤ a) (hs : s.length ≤ MAX_SALT_LEN) :
    create_commitment o a s =
      .ok (sha256 (serializeAddress o ++ i128ToBytesBE a ++ s)) ∧
    (∀ d, create_commitment o a s = .ok d → d.length = 32) ∧
    (i128ToBytesBE a).length = 16 ∧
    (∀ (o₂ : Address) (a₂ : Int) (s₂ : Bytes), o₂ = o → a₂ = a → s₂ = s →
      create_commitment o₂ a₂ s₂ = create_commitment o a s) := by
  have ha' : ¬ a < 0 := not_lt.mpr ha
  have hs' : ¬ MAX_SALT_LEN < s.length := not_lt.mpr hs
  refine ⟨create_commitment_ok o a s ha' hs', ?_, rfl, ?_⟩
  · intro d hd
    rcases create_commitment_isOk o a s d hd with ⟨-, -, rfl⟩
    exact sha256_length _
  · rintro o₂ a₂ s₂ rfl rfl rfl
    rfl

/-- Witness for C3 at a concrete input. -/
theorem create_commitment_deterministic_sha256_witness :
    create_commitment bobAddr 100 [1, 2, 3] =
      .ok (sha256 (serializeAddress bobAddr ++ i128ToBytesBE 100 ++ [1, 2, 3])) ∧
    (i128ToBytesBE (100 : Int)).length = 16 :=
  ⟨(create_commitment_deterministic_sha256 bobAddr 100 [1, 2, 3]
      (by decide) (by decide)).1,
   (create_commitment_deterministic_sha256 bobAddr 100 [1, 2, 3]
      (by decide) (by decide)).2.2.1⟩

/-- C5 (amended): `create_commitment` fails with `InvalidAmount` exactly when
the amount is negative, fails with `InvalidSalt` exactly when the amount is
non-negative and the salt exceeds the 1024-byte cap (the amount is validated
first, so a single error is reported when both inputs are malformed),
succeeds exactly on well-formed inputs, enforces the same salt cap during
verification, and accepts amount 0 with the empty salt. -/
theorem create_commitment_rejects_exactly_malformed :
    MAX_SALT_LEN = 1024 ∧
    (∀ (o : Address) (a : Int) (s : Bytes),
      (create_commitment o a s = .error .InvalidAmount ↔ a < 0) ∧
      (create_commitment o a s = .error .InvalidSalt ↔
        0 ≤ a ∧ MAX_SALT_LEN < s.length) ∧
      ((∃ d, create_commitment o a s = .ok d) ↔
        0 ≤ a ∧ s.length ≤ MAX_SALT_LEN)) ∧
    (∀ (c : Bytes) (o : Address) (a : Int) (s : Bytes),
      MAX_SALT_LEN < s.length → verify_commitment c o a s = false) ∧
    (∀ o : Address, ∃ d, create_commitment o 0 [] = .ok d) := by
  refine ⟨rfl, ?_, ?_, ?_⟩
  · intro o a s
    by_cases ha : a < 0
    · simp [create_commitment, ha, not_le.mpr ha]
    · by_cases hs : MAX_SALT_LEN < s.length
      · simp [create_commitment, ha, hs, not_lt.mp ha, not_le.mpr hs]
      · simp [create_commitment, ha, hs, not_lt.mp ha, not_lt.mp hs]
  · intro c o a s hs
    cases h : create_commitment o a s with
    | ok d =>
      rcases create_commitment_isOk o a s d h with ⟨-, hs', -⟩
      exact absurd hs hs'
    | error e => simp [verify_commitment, h]
  · intro o
    exact ⟨_, create_commitment_ok o 0 [] (by decide) (by decide)⟩

/-- C5 counterexample: with a negative amount and an oversized salt together,
`create_commitment` reports `InvalidAmount`, so "fails with `InvalidSalt` if
and only if the salt length exceeds the maximum" is false as stated (no
single-error implementation can satisfy both unconditioned iffs at once). -/
theorem create_commitment_invalid_salt_iff_cex :
    create_commitment alice (-1) (List.replicate 1025 0) = .error .InvalidAmount ∧
    MAX_SALT_LEN < (List.replicate 1025 (0 : Nat)).length ∧
    create_commitment alice (-1) (List.replicate 1025 0) ≠ .error .InvalidSalt := by
  refine ⟨by decide, by simp [MAX_SALT_LEN], by decide⟩

/-- Witness for C5 at concrete inputs. -/
theorem create_commitment_rejects_exactly_malformed_witness :
    verify_commitment [] alice 5 (List.replicate 1025 0) = false ∧
    (∃ d, create_commitment alice 0 [] = .ok d) :=
  ⟨create_commitment_rejects_exactly_malformed.2.2.1 [] alice 5
      (List.replicate 1025 0) (by simp [MAX_SALT_LEN]),
   create_commitment_rejects_exactly_malformed.2.2.2 alice⟩

theorem verify_commitment_iff (c : Bytes) (o : Address) (a : Int) (s : Bytes) :
    verify_commitment c o a s = true ↔ create_commitment o a s = .ok c := by
  cases h : create_commitment o a s with
  | ok d => simp [verify_commitment, h]
  | error e => simp [verify_commitment, h]

/-- C4 (amended): `verify_commitment` is a total boolean — false, never an
error, on any recomputation failure including a negative amount or an
oversized salt — and returns true exactly when `create_commitment`
recomputes to the given commitment; hence verification of a freshly created
commitment succeeds, and changing any of owner, amount or salt makes
verification return false whenever the changed triple's recomputed digest
differs from the original (SHA-256 collisions are the sole exception). -/
theorem verify_commitment_boolean_binding :
    (∀ (c : Bytes) (o : Address) (a : Int) (s : Bytes),
      verify_commitment c o a s = true ↔ create_commitment o a s = .ok c) ∧
    (∀ (o : Address) (a : Int) (s : Bytes) (c : Bytes),
      create_commitment o a s = .ok c → verify_commitment c o a s = true) ∧
    (∀ (c : Bytes) (o : Address) (a : Int) (s : Bytes), a < 0 →
      verify_commitment c o a s = false) ∧
    (∀ (c : Bytes) (o : Address) (a : Int) (s : Bytes), MAX_SALT_LEN < s.length →
      verify_commitment c o a s = false) ∧
    (∀ (o o' : Address) (a a' : Int) (s s' : Bytes) (c c' : Bytes),
      create_commitment o a s = .ok c → create_commitment o' a' s' = .ok c' →
      c' ≠ c → verify_commitment c o' a' s' = false) := by
  refine ⟨verify_commitment_iff, ?_, ?_, ?_, ?_⟩
  · intro o a s c h
    exact (verify_commitment_iff c o a s).mpr h
  · intro c o a s ha
    simp [verify_commitment, create_commitment, ha]
  · intro c o a s hs
    cases h : create_commitment o a s with
    | ok d =>
      rcases create_commitment_isOk o a s d h with ⟨-, hs', -⟩
      exact absurd hs hs'
    | error e => simp [verify_commitment, h]
  · intro o o' a a' s s' c c' _ h' hne
    simp [verify_commitment, h', hne]

/-- Witness for C4 at concrete inputs. -/
theorem verify_commitment_boolean_binding_witness :
    verify_commitment (sha256 (serializeAddress bobAddr ++ i128ToBytesBE 100 ++
      [1, 2, 3])) bobAddr 100 [1, 2, 3] = true ∧
    verify_commitment [] bobAddr (-5) [] = false ∧
    verify_commitment [] bobAddr 5 (List.replicate 1025 0) = false ∧
    verify_commitment (sha256 (serializeAddress bobAddr ++ i128ToBytesBE 100 ++
      [1, 2, 3])) bobAddr 100 [1, 2, 4] = false :=
  ⟨verify_commitment_boolean_binding.2.1 bobAddr 100 [1, 2, 3] _ rfl,
   verify_commitment_boolean_binding.2.2.1 [] bobAddr (-5) [] (by decide),
   verify_commitment_boolean_binding.2.2.2.1 [] bobAddr 5 (List.replicate 1025 0)
     (by simp [MAX_SALT_LEN]),
   verify_commitment_boolean_binding.2.2.2.2 bobAddr bobAddr 100 100 [1, 2, 3]
     [1, 2, 4] _ _ rfl rfl (by decide)⟩

theorem sha256_salt_collision_exists :
    ∃ s₁ s₂ : Bytes, s₁ ≠ s₂ ∧ s₁.length = 33 ∧ s₂.length = 33 ∧
      sha256 (serializeAddress alice ++ i128ToBytesBE 1 ++ s₁) =
        sha256 (serializeAddress alice ++ i128ToBytesBE 1 ++ s₂) := by
  classical
  set pre : Bytes := serializeAddress alice ++ i128ToBytesBE 1 with hpre
  have hdig : ∀ g : Fin 33 → Fin 256, ∀ i : Fin 32,
      (i : Nat) < (sha256 (pre ++ (List.ofFn g).map Fin.val)).length := by
    intro g i
    rw [sha256_length]
    exact i.isLt
  let F : (Fin 33 → Fin 256) → (Fin 32 → Fin 256) := fun g i =>
    ⟨(sha256 (pre ++ (List.ofFn g).map Fin.val)).getD i 0, by
      rw [List.getD_eq_getElem _ _ (hdig g i)]
      exact sha256_bytes_lt _ _ (List.getElem_mem _)⟩
  have hcard : Fintype.card (Fin 32 → Fin 256) < Fintype.card (Fin 33 → Fin 256) := by
    rw [Fintype.card_fun, Fintype.card_fun, Fintype.card_fin, Fintype.card_fin,
      Fintype.card_fin]
    exact Nat.pow_lt_pow_succ (by norm_num)
  obtain ⟨g₁, g₂, hne, heq⟩ := Fintype.exists_ne_map_eq_of_card_lt F hcard
  refine ⟨(List.ofFn g₁).map Fin.val, (List.ofFn g₂).map Fin.val, ?_, by simp, by simp, ?_⟩
  · intro h
    exact hne (List.ofFn_injective (List.map_injective_iff.mpr Fin.val_injective h))
  · apply List.ext_getElem (by rw [sha256_length, sha256_length])
    intro n h₁ h₂
    have hn32 : n < 32 := by
      have := h₁
      rwa [sha256_length] at this
    have hii : F g₁ ⟨n, hn32⟩ = F g₂ ⟨n, hn32⟩ := congrFun heq _
    have hvv : (sha256 (pre ++ (List.ofFn g₁).map Fin.val)).getD n 0 =
        (sha256 (pre ++ (List.ofFn g₂).map Fin.val)).getD n 0 :=
      congrArg Fin.val hii
    rw [List.getD_eq_getElem _ _ (hdig g₁ ⟨n, hn32⟩),
      List.getD_eq_getElem _ _ (hdig g₂ ⟨n, hn32⟩)] at hvv
    exact hvv

/-- C4 counterexample: the flip-to-false clause is false as universally
stated — by cardinality, two distinct valid salts (with owner and amount
held fixed) produce the same SHA-256 commitment, and the commitment created
from the first verifies against the second. -/
theorem verify_commitment_flip_cex :
    ∃ s₁ s₂ : Bytes, s₁ ≠ s₂ ∧ s₁.length ≤ MAX_SALT_LEN ∧ s₂.length ≤ MAX_SALT_LEN ∧
      ∃ c : Bytes, create_commitment alice 1 s₁ = .ok c ∧
        verify_commitment c alice 1 s₂ = true := by
  obtain ⟨s₁, s₂, hne, hl₁, hl₂, hdig⟩ := sha256_salt_collision_exists
  have hs₁ : ¬ MAX_SALT_LEN < s₁.length := by rw [hl₁]; simp [MAX_SALT_LEN]
  have hs₂ : ¬ MAX_SALT_LEN < s₂.length := by rw [hl₂]; simp [MAX_SALT_LEN]
  have ha : ¬ (1 : Int) < 0 := by decide
  refine ⟨s₁, s₂, hne, by omega, by omega, _,
    create_commitment_ok alice 1 s₁ ha hs₁, ?_⟩
  have hdig' : sha256 (serializeAddress alice ++ (i128ToBytesBE 1 ++ s₂)) =
      sha256 (serializeAddress alice ++ (i128ToBytesBE 1 ++ s₁)) := by
    rw [← List.append_assoc, ← List.append_assoc]
    exact hdig.symm
  simp [verify_commitment, create_commitment_ok alice 1 s₂ ha hs₂, hdig']

/-! ## Lemmas about the escrow state machine -/

theorem get_escrow_put (st : ContractState) (c c' : Bytes) (e : EscrowEntry) :
    get_escrow (put_escrow st c e) c' =
      if c' = c then some e else get_escrow st c' := rfl

theorem has_escrow_iff (st : ContractState) (c : Bytes) :
    has_escrow st c = true ↔ ∃ e, get_escrow st c = some e := by
  unfold has_escrow get_escrow
  cases st.escrows c <;> simp

theorem deposit_ok_cases (t : Address) (a : Int) (o : Address) (s : Bytes)
    (st : ContractState) (c : Bytes)
    (h : (deposit t a o s st).2 = .ok c) :
    st.paused = false ∧ 0 < a ∧ create_commitment o a s = .ok c ∧
      has_escrow st c = false ∧
      (deposit t a o s st).1 =
        { put_escrow st c ⟨t, a, o, .Pending, st.now⟩ with
            counter := st.counter + 1 } := by
  by_cases hp : st.paused = true
  · simp [deposit, hp] at h
  · by_cases ha : a ≤ 0
    · simp [deposit, hp, ha] at h
    · cases hc : create_commitment o a s with
      | error e => simp [deposit, hp, ha, hc] at h
      | ok c0 =>
        by_cases he : has_escrow st c0 = true
        · simp [deposit, hp, ha, hc, he] at h
        · have h' : c0 = c := by simpa [deposit, hp, ha, hc, he] using h
          subst h'
          refine ⟨by simpa using hp, by omega, rfl, by simpa using he, ?_⟩
          simp [deposit, hp, ha, hc, he]

theorem deposit_state_of_ok (t : Address) (a : Int) (o : Address) (s : Bytes)
    (st : ContractState) (c : Bytes)
    (h : (deposit t a o s st).2 = .ok c) :
    (deposit t a o s st).1.paused = st.paused ∧
    (deposit t a o s st).1.admin = st.admin ∧
    (deposit t a o s st).1.now = st.now ∧
    (deposit t a o s st).1.counter = st.counter + 1 ∧
    (∀ k, get_escrow (deposit t a o s st).1 k =
      if k = c then some ⟨t, a, o, .Pending, st.now⟩ else get_escrow st k) := by
  obtain ⟨-, -, -, -, hst⟩ := deposit_ok_cases t a o s st c h
  rw [hst]
  exact ⟨rfl, rfl, rfl, rfl, fun k => rfl⟩

/-- C1 (amended): in a fresh contract holding exactly the escrow that
`deposit(token, amount, owner, salt)` created under commitment `c`, a
`withdraw(to, amount', salt')` call succeeds exactly when its recomputed
commitment is `c`; a call whose (valid) triple recomputes to a different
digest fails with `EscrowNotFound`, a call whose amount or salt fails
commitment validation fails with that validation error, and in every failure
case the state — in particular the original escrow entry, still `Pending` —
is unchanged. -/
theorem withdraw_binding_to_commitment
    (t o ta : Address) (a a' : Int) (s s' : Bytes) (st : ContractState) (c : Bytes)
    (hempty : ∀ k, get_escrow st k = none)
    (hdep : (deposit t a o s st).2 = .ok c) :
    ((withdraw ta a' s' (deposit t a o s st).1).2 = .ok () ↔
      create_commitment ta a' s' = .ok c) ∧
    (∀ c', create_commitment ta a' s' = .ok c' → c' ≠ c →
      withdraw ta a' s' (deposit t a o s st).1 =
        ((deposit t a o s st).1, .error .EscrowNotFound)) ∧
    (∀ err, create_commitment ta a' s' = .error err →
      withdraw ta a' s' (deposit t a o s st).1 =
        ((deposit t a o s st).1, .error err)) ∧
    get_escrow (deposit t a o s st).1 c = some ⟨t, a, o, .Pending, st.now⟩ := by
  obtain ⟨hp, -, -, -, -⟩ := deposit_ok_cases t a o s st c hdep
  obtain ⟨hp₁, -, -, -, hget⟩ := deposit_state_of_ok t a o s st c hdep
  have hpf : (deposit t a o s st).1.paused = false := hp₁.trans hp
  have hgetc : get_escrow (deposit t a o s st).1 c =
      some ⟨t, a, o, .Pending, st.now⟩ := by
    rw [hget c, if_pos rfl]
  refine ⟨?_, ?_, ?_, hgetc⟩
  · cases hc' : create_commitment ta a' s' with
    | error e => simp [withdraw, hpf, hc']
    | ok c' =>
      by_cases hcc : c' = c
      · subst hcc
        simp [withdraw, hpf, hc', hgetc]
      · have : get_escrow (deposit t a o s st).1 c' = none := by
          rw [hget c', if_neg hcc, hempty c']
        simp [withdraw, hpf, hc', this, hcc]
  · intro c' hc' hcc
    have : get_escrow (deposit t a o s st).1 c' = none := by
      rw [hget c', if_neg hcc, hempty c']
    simp [withdraw, hpf, hc', this]
  · intro err herr
    simp [withdraw, hpf, herr]

/-- Witness for C1: deposit 100 for Bob under salt `[1,2,3]`, then attempt
withdrawal with the tampered salt `[1,2,4]` — the call fails with
`EscrowNotFound` and the state is unchanged. -/
theorem withdraw_binding_to_commitment_witness :
    withdraw bobAddr 100 [1, 2, 4] (deposit tokenA 100 bobAddr [1, 2, 3] emptyState).1 =
      ((deposit tokenA 100 bobAddr [1, 2, 3] emptyState).1, .error .EscrowNotFound) :=
  (withdraw_binding_to_commitment tokenA bobAddr bobAddr 100 100 [1, 2, 3] [1, 2, 4]
    emptyState _ (fun _ => rfl) rfl).2.1 _ rfl (by decide)

/-- C1 counterexample: the tampered withdrawal `withdraw(Bob, 100, salt')`
with an oversized `salt'` is a call whose triple differs from the deposited
one, yet it fails with `InvalidSalt`, not `EscrowNotFound` — the claimed
error is not the one produced for every differing triple. -/
theorem withdraw_wrong_triple_error_cex :
    (withdraw bobAddr 100 (List.replicate 1025 0)
        (deposit tokenA 100 bobAddr [1, 2, 3] emptyState).1).2 = .error .InvalidSalt ∧
    (Except.error ContractError.InvalidSalt : Except ContractError Unit) ≠
      .error .EscrowNotFound ∧
    List.replicate 1025 0 ≠ [1, 2, 3] := by
  refine ⟨?_, by decide, by decide⟩
  exact congrArg Prod.snd
    ((withdraw_binding_to_commitment tokenA bobAddr bobAddr 100 100 [1, 2, 3]
      (List.replicate 1025 0) emptyState _ (fun _ => rfl) rfl).2.2.1 .InvalidSalt
      (by simp [create_commitment, MAX_SALT_LEN]))

theorem deposit_preserves_entry (t : Address) (a : Int) (o : Address) (s : Bytes)
    (st : ContractState) (c : Bytes) (e : EscrowEntry)
    (he : get_escrow st c = some e) :
    get_escrow (deposit t a o s st).1 c = some e := by
  by_cases hp : st.paused = true
  · simp [deposit, hp, he]
  · by_cases ha : a ≤ 0
    · simp [deposit, hp, ha, he]
    · cases hc : create_commitment o a s with
      | error err => simp [deposit, hp, ha, hc, he]
      | ok c0 =>
        by_cases hh : has_escrow st c0 = true
        · simp [deposit, hp, ha, hc, hh, he]
        · have hne : c ≠ c0 := by
            intro hcc
            subst hcc
            exact hh ((has_escrow_iff st c).mpr ⟨e, he⟩)
          simpa [deposit, hp, ha, hc, hh, get_escrow, put_escrow, hne]
            using he

theorem depwc_preserves_entry («from» t : Address) (a : Int) (cm : Bytes)
    (st : ContractState) (c : Bytes) (e : EscrowEntry)
    (he : get_escrow st c = some e) :
    get_escrow (deposit_with_commitment «from» t a cm st).1 c = some e := by
  by_cases hp : st.paused = true
  · simp [deposit_with_commitment, hp, he]
  · by_cases ha : a ≤ 0
    · simp [deposit_with_commitment, hp, ha, he]
    · by_cases hh : has_escrow st cm = true
      · simp [deposit_with_commitment, hp, ha, hh, he]
      · have hne : c ≠ cm := by
          intro hcc
          subst hcc
          exact hh ((has_escrow_iff st c).mpr ⟨e, he⟩)
        simpa [deposit_with_commitment, hp, ha, hh, get_escrow, put_escrow, hne]
          using he

theorem withdraw_preserves_terminal (ta : Address) (a : Int) (s : Bytes)
    (st : ContractState) (c : Bytes) (e : EscrowEntry)
    (he : get_escrow st c = some e) (hterm : e.status ≠ .Pending) :
    get_escrow (withdraw ta a s st).1 c = some e := by
  by_cases hp : st.paused = true
  · simp [withdraw, hp, he]
  · cases hc : create_commitment ta a s with
    | error err => simp [withdraw, hp, hc, he]
    | ok c0 =>
      cases hg : get_escrow st c0 with
      | none => simp [withdraw, hp, hc, hg, he]
      | some entry =>
        by_cases hpend : entry.status = .Pending
        · have hne : c ≠ c0 := by
            intro hcc
            subst hcc
            rw [he] at hg
            cases hg
            exact hterm hpend
          have hg' : st.escrows c0 = some entry := hg
          simpa [withdraw, hp, hc, hg', hpend, get_escrow, put_escrow, hne]
            using he
        · simp [withdraw, hp, hc, hg, hpend, he]

theorem refund_preserves_terminal (cm : Bytes) (st : ContractState) (c : Bytes)
    (e : EscrowEntry) (he : get_escrow st c = some e)
    (hterm : e.status ≠ .Pending) :
    get_escrow (refund cm st).1 c = some e := by
  by_cases hp : st.paused = true
  · simp [refund, hp, he]
  · cases hg : get_escrow st cm with
    | none => simp [refund, hp, hg, he]
    | some entry =>
      by_cases hpend : entry.status = .Pending
      · by_cases hexp : entry.created_at + EXPIRY_THRESHOLD ≤ st.now
        · have hne : c ≠ cm := by
            intro hcc
            subst hcc
            rw [he] at hg
            cases hg
            exact hterm hpend
          have hg' : st.escrows cm = some entry := hg
          simpa [refund, hp, hg', hpend, hexp, get_escrow, put_escrow, hne]
            using he
        · simp [refund, hp, hg, hpend, hexp, he]
      · simp [refund, hp, hg, hpend, he]

theorem step_preserves_terminal (st : ContractState) (op : Op) (c : Bytes)
    (e : EscrowEntry) (he : get_escrow st c = some e)
    (hterm : e.status ≠ .Pending) :
    get_escrow (step st op).1 c = some e := by
  cases op with
  | opDeposit t a o s => exact deposit_preserves_entry t a o s st c e he
  | opDepositWithCommitment f t a cm => exact depwc_preserves_entry f t a cm st c e he
  | opWithdraw ta a s => exact withdraw_preserves_terminal ta a s st c e he hterm
  | opRefund cm => exact refund_preserves_terminal cm st c e he hterm
  | opInitialize adm =>
    cases ha : st.admin <;> simp [step, initializeContract, ha, get_escrow] <;>
      exact he
  | opSetPaused caller b =>
    cases ha : st.admin with
    | none => simpa [step, set_paused, ha, get_escrow] using he
    | some adm =>
      by_cases hcaller : caller = adm <;>
        simpa [step, set_paused, ha, hcaller, get_escrow] using he

theorem runOps_preserves_terminal (ops : List Op) (st : ContractState) (c : Bytes)
    (e : EscrowEntry) (he : get_escrow st c = some e)
    (hterm : e.status ≠ .Pending) :
    get_escrow (runOps st ops) c = some e := by
  induction ops generalizing st with
  | nil => simpa [runOps] using he
  | cons op ops ih =>
    simp only [runOps, List.foldl] at *
    exact ih (step st op).1 (step_preserves_terminal st op c e he hterm)

theorem withdraw_terminal_fails (ta : Address) (a : Int) (s : Bytes)
    (st : ContractState) (c : Bytes) (e : EscrowEntry)
    (hc : create_commitment ta a s = .ok c)
    (he : get_escrow st c = some e) (hterm : e.status ≠ .Pending) :
    (withdraw ta a s st).2 ≠ .ok () ∧
    (st.paused = false → withdraw ta a s st = (st, .error .EscrowNotPending)) := by
  by_cases hp : st.paused = true
  · refine ⟨by simp [withdraw, hp], fun hpf => ?_⟩
    rw [hpf] at hp
    exact absurd hp (by simp)
  · exact ⟨by simp [withdraw, hp, hc, he, hterm],
      fun _ => by simp [withdraw, hp, hc, he, hterm]⟩

theorem refund_terminal_fails (st : ContractState) (c : Bytes) (e : EscrowEntry)
    (he : get_escrow st c = some e) (hterm : e.status ≠ .Pending) :
    (refund c st).2 ≠ .ok () ∧
    (st.paused = false → refund c st = (st, .error .EscrowNotPending)) := by
  by_cases hp : st.paused = true
  · refine ⟨by simp [refund, hp], fun hpf => ?_⟩
    rw [hpf] at hp
    exact absurd hp (by simp)
  · exact ⟨by simp [refund, hp, he, hterm],
      fun _ => by simp [refund, hp, he, hterm]⟩

theorem withdraw_ok_cases (ta : Address) (a : Int) (s : Bytes) (st : ContractState)
    (h : (withdraw ta a s st).2 = .ok ()) :
    st.paused = false ∧ ∃ c e, create_commitment ta a s = .ok c ∧
      get_escrow st c = some e ∧ e.status = .Pending ∧
      (withdraw ta a s st).1 = put_escrow st c { e with status := .Spent } := by
  by_cases hp : st.paused = true
  · simp [withdraw, hp] at h
  · cases hc : create_commitment ta a s with
    | error err => simp [withdraw, hp, hc] at h
    | ok c0 =>
      cases hg : get_escrow st c0 with
      | none => simp [withdraw, hp, hc, hg] at h
      | some entry =>
        by_cases hpend : entry.status = .Pending
        · exact ⟨by simpa using hp, c0, entry, rfl, hg, hpend,
            by simp [withdraw, hp, hc, hg, hpend]⟩
        · simp [withdraw, hp, hc, hg, hpend] at h

/-- C2: the escrow state machine admits no transition out of a terminal
state — an entry that is `Spent` or `Expired` survives any sequence of
contract invocations unchanged, a withdraw whose triple recomputes to its
commitment and a refund of its commitment never succeed afterwards (failing
with `EscrowNotPending` when not paused, with the state unchanged), and a
second withdraw immediately after a successful one fails with
`EscrowNotPending` — so the funds behind one commitment are paid out at most
once. -/
theorem terminal_escrows_final
    (st : ContractState) (ta : Address) (a : Int) (s : Bytes) (c : Bytes)
    (e : EscrowEntry)
    (hc : create_commitment ta a s = .ok c)
    (he : get_escrow st c = some e)
    (hterm : e.status ≠ .Pending) :
    (∀ ops : List Op,
      get_escrow (runOps st ops) c = some e ∧
      (withdraw ta a s (runOps st ops)).2 ≠ .ok () ∧
      (refund c (runOps st ops)).2 ≠ .ok ()) ∧
    (st.paused = false →
      withdraw ta a s st = (st, .error .EscrowNotPending) ∧
      refund c st = (st, .error .EscrowNotPending)) ∧
    (∀ st' : ContractState, (withdraw ta a s st').2 = .ok () →
      (withdraw ta a s (withdraw ta a s st').1).2 = .error .EscrowNotPending) := by
  refine ⟨?_, ?_, ?_⟩
  · intro ops
    have he' := runOps_preserves_terminal ops st c e he hterm
    exact ⟨he',
      (withdraw_terminal_fails ta a s (runOps st ops) c e hc he' hterm).1,
      (refund_terminal_fails (runOps st ops) c e he' hterm).1⟩
  · intro hpf
    exact ⟨(withdraw_terminal_fails ta a s st c e hc he hterm).2 hpf,
      (refund_terminal_fails st c e he hterm).2 hpf⟩
  · intro st' h
    obtain ⟨hp', c', e', hc', hg', hpend', hst'⟩ := withdraw_ok_cases ta a s st' h
    have hpf₂ : (withdraw ta a s st').1.paused = false := by
      rw [hst']
      exact hp'
    have hg₂ : get_escrow (withdraw ta a s st').1 c' =
        some { e' with status := .Spent } := by
      rw [hst', get_escrow_put, if_pos rfl]
    have hterm₂ : ({ e' with status := .Spent } : EscrowEntry).status ≠ .Pending := by
      simp
    exact congrArg Prod.snd
      ((withdraw_terminal_fails ta a s (withdraw ta a s st').1 c'
        { e' with status := .Spent } hc' hg₂ hterm₂).2 hpf₂)

/-- Witness for C2: deposit then withdraw succeed; a second identical
withdraw on the resulting state fails with `EscrowNotPending`, and so does a
run through an empty invocation sequence. -/
theorem terminal_escrows_final_witness :
    (withdraw bobAddr 100 [1, 2, 3]
      (runOps (withdraw bobAddr 100 [1, 2, 3]
        (deposit tokenA 100 bobAddr [1, 2, 3] emptyState).1).1 [])).2 ≠ .ok () ∧
    withdraw bobAddr 100 [1, 2, 3]
        (withdraw bobAddr 100 [1, 2, 3]
          (deposit tokenA 100 bobAddr [1, 2, 3] emptyState).1).1 =
      ((withdraw bobAddr 100 [1, 2, 3]
          (deposit tokenA 100 bobAddr [1, 2, 3] emptyState).1).1,
        .error .EscrowNotPending) :=
  have h := terminal_escrows_final
    (withdraw bobAddr 100 [1, 2, 3]
      (deposit tokenA 100 bobAddr [1, 2, 3] emptyState).1).1
    bobAddr 100 [1, 2, 3] _ _ rfl rfl (by decide)
  ⟨(h.1 []).2.1, (h.2.1 rfl).1⟩

/-- C6: `deposit` (and `deposit_with_commitment`) rejects non-positive
amounts — in particular a zero-amount deposit — rejects with
`EscrowAlreadyExists` whenever an entry already exists at the commitment
key without overwriting it, so a second deposit of the same (owner, amount,
salt) triple always fails; and on success it stores a fresh `Pending` entry
and increments `EscrowCounter`. -/
theorem deposit_requirements :
    (∀ (t : Address) (a : Int) (o : Address) (s : Bytes) (st : ContractState),
      st.paused = false → a ≤ 0 →
        deposit t a o s st = (st, .error .InvalidAmount)) ∧
    (∀ («from» t : Address) (a : Int) (cm : Bytes) (st : ContractState),
      st.paused = false → a ≤ 0 →
        deposit_with_commitment «from» t a cm st = (st, .error .InvalidAmount)) ∧
    (∀ (t : Address) (a : Int) (o : Address) (s : Bytes) (st : ContractState)
        (c : Bytes),
      st.paused = false → 0 < a → create_commitment o a s = .ok c →
      has_escrow st c = true →
        deposit t a o s st = (st, .error .EscrowAlreadyExists)) ∧
    (∀ («from» t : Address) (a : Int) (cm : Bytes) (st : ContractState),
      st.paused = false → 0 < a → has_escrow st cm = true →
        deposit_with_commitment «from» t a cm st =
          (st, .error .EscrowAlreadyExists)) ∧
    (∀ (t t' : Address) (a : Int) (o : Address) (s : Bytes) (st : ContractState)
        (c : Bytes),
      (deposit t a o s st).2 = .ok c →
        deposit t' a o s (deposit t a o s st).1 =
          ((deposit t a o s st).1, .error .EscrowAlreadyExists)) ∧
    (∀ (t : Address) (a : Int) (o : Address) (s : Bytes) (st : ContractState)
        (c : Bytes),
      st.paused = false → 0 < a → create_commitment o a s = .ok c →
      has_escrow st c = false →
        deposit t a o s st =
          ({ put_escrow st c ⟨t, a, o, .Pending, st.now⟩ with
              counter := st.counter + 1 }, .ok c) ∧
        get_escrow (deposit t a o s st).1 c = some ⟨t, a, o, .Pending, st.now⟩ ∧
        (deposit t a o s st).1.counter = st.counter + 1) := by
  refine ⟨?_, ?_, ?_, ?_, ?_, ?_⟩
  · intro t a o s st hp ha
    simp [deposit, hp, ha]
  · intro f t a cm st hp ha
    simp [deposit_with_commitment, hp, ha]
  · intro t a o s st c hp ha hc hh
    simp [deposit, hp, not_le.mpr ha, hc, hh]
  · intro f t a cm st hp ha hh
    simp [deposit_with_commitment, hp, not_le.mpr ha, hh]
  · intro t t' a o s st c h
    obtain ⟨hp, ha, hc, -, -⟩ := deposit_ok_cases t a o s st c h
    obtain ⟨hp₁, -, -, -, hget⟩ := deposit_state_of_ok t a o s st c h
    set st₁ := (deposit t a o s st).1 with hst₁
    have hpf₁ : st₁.paused = false := hp₁.trans hp
    have hh₁ : has_escrow st₁ c = true :=
      (has_escrow_iff _ c).mpr ⟨_, by rw [hget c, if_pos rfl]⟩
    simp [deposit, hpf₁, not_le.mpr ha, hc, hh₁]
  · intro t a o s st c hp ha hc hh
    refine ⟨by simp [deposit, hp, not_le.mpr ha, hc, hh], ?_, ?_⟩
    · have := deposit_state_of_ok t a o s st c
        (by simp [deposit, hp, not_le.mpr ha, hc, hh])
      rw [this.2.2.2.2 c, if_pos rfl]
    · exact (deposit_state_of_ok t a o s st c
        (by simp [deposit, hp, not_le.mpr ha, hc, hh])).2.2.2.1

/-- Witness for C6: a zero deposit is rejected, and a second deposit of the
same triple fails with `EscrowAlreadyExists`. -/
theorem deposit_requirements_witness :
    deposit tokenA 0 bobAddr [1] emptyState = (emptyState, .error .InvalidAmount) ∧
    deposit_with_commitment alice tokenA 0 [9] emptyState =
      (emptyState, .error .InvalidAmount) ∧
    deposit tokenA 100 bobAddr [1, 2, 3]
        (deposit tokenA 100 bobAddr [1, 2, 3] emptyState).1 =
      ((deposit tokenA 100 bobAddr [1, 2, 3] emptyState).1,
        .error .EscrowAlreadyExists) ∧
    (deposit tokenA 100 bobAddr [1, 2, 3] emptyState).1.counter = 1 :=
  ⟨deposit_requirements.1 tokenA 0 bobAddr [1] emptyState rfl (by decide),
   deposit_requirements.2.1 alice tokenA 0 [9] emptyState rfl (by decide),
   deposit_requirements.2.2.2.2.1 tokenA tokenA 100 bobAddr [1, 2, 3] emptyState
     _ rfl,
   (deposit_requirements.2.2.2.2.2 tokenA 100 bobAddr [1, 2, 3] emptyState _
     rfl (by decide) rfl rfl).2.2⟩

/-- C7: `initialize(admin)` succeeds at most once per contract instance —
the first call on an uninitialized state stores the given admin, and every
later call fails with `AlreadyInitialized`, leaving the stored admin
unchanged. -/
theorem initialize_at_most_once (st : ContractState) (a : Address) :
    (st.admin = none →
      initializeContract a st = ({ st with admin := some a }, .ok ()) ∧
      (∀ b, initializeContract b (initializeContract a st).1 =
        ((initializeContract a st).1, .error .AlreadyInitialized))) ∧
    (∀ adm, st.admin = some adm →
      initializeContract a st = (st, .error .AlreadyInitialized) ∧
      (initializeContract a st).1.admin = some adm) := by
  constructor
  · intro hnone
    have h1 : initializeContract a st = ({ st with admin := some a }, .ok ()) := by
      simp [initializeContract, hnone]
    refine ⟨h1, fun b => ?_⟩
    rw [h1]
    simp [initializeContract]
  · intro adm hsome
    have h1 : initializeContract a st = (st, .error .AlreadyInitialized) := by
      simp [initializeContract, hsome]
    exact ⟨h1, by rw [h1]; exact hsome⟩

/-- Witness for C7 on a fresh state. -/
theorem initialize_at_most_once_witness :
    initializeContract alice emptyState =
      ({ emptyState with admin := some alice }, .ok ()) ∧
    initializeContract bobAddr (initializeContract alice emptyState).1 =
      ((initializeContract alice emptyState).1, .error .AlreadyInitialized) :=
  have h := (initialize_at_most_once emptyState alice).1 rfl
  ⟨h.1, h.2 bobAddr⟩

/-- C8: while `PausedFlag` is set, every `deposit`, `deposit_with_commitment`,
`withdraw` and `refund` fails with `ContractPaused` with the state untouched;
`set_paused` from any caller other than the stored admin fails with
`Unauthorized`; the stored admin can flip the flag, and once the admin has
unpaused, a well-formed deposit succeeds again. -/
theorem pause_gating :
    (∀ (st : ContractState) (t : Address) (a : Int) (o : Address) (s : Bytes),
      st.paused = true → deposit t a o s st = (st, .error .ContractPaused)) ∧
    (∀ (st : ContractState) («from» t : Address) (a : Int) (cm : Bytes),
      st.paused = true →
        deposit_with_commitment «from» t a cm st = (st, .error .ContractPaused)) ∧
    (∀ (st : ContractState) (ta : Address) (a : Int) (s : Bytes),
      st.paused = true → withdraw ta a s st = (st, .error .ContractPaused)) ∧
    (∀ (st : ContractState) (cm : Bytes),
      st.paused = true → refund cm st = (st, .error .ContractPaused)) ∧
    (∀ (st : ContractState) (caller : Address) (b : Bool),
      (∀ adm, st.admin = some adm → caller ≠ adm) →
        set_paused caller b st = (st, .error .Unauthorized)) ∧
    (∀ (st : ContractState) (adm : Address) (b : Bool), st.admin = some adm →
      set_paused adm b st = ({ st with paused := b }, .ok ())) ∧
    (∀ (st : ContractState) (adm t o : Address) (a : Int) (s : Bytes) (c : Bytes),
      st.admin = some adm → 0 < a → create_commitment o a s = .ok c →
      has_escrow st c = false →
        (set_paused adm false st).1.paused = false ∧
        (deposit t a o s (set_paused adm false st).1).2 = .ok c) := by
  refine ⟨?_, ?_, ?_, ?_, ?_, ?_, ?_⟩
  · intro st t a o s hp
    simp [deposit, hp]
  · intro st f t a cm hp
    simp [deposit_with_commitment, hp]
  · intro st ta a s hp
    simp [withdraw, hp]
  · intro st cm hp
    simp [refund, hp]
  · intro st caller b hne
    cases ha : st.admin with
    | none => simp [set_paused, ha]
    | some adm => simp [set_paused, ha, hne adm ha]
  · intro st adm b hadm
    simp [set_paused, hadm]
  · intro st adm t o a s c hadm ha hc hh
    have hset : (set_paused adm false st).1 = { st with paused := false } := by
      simp [set_paused, hadm]
    rw [hset]
    refine ⟨rfl, ?_⟩
    have hh' : has_escrow { st with paused := false } c = false := hh
    simp [deposit, not_le.mpr ha, hc, hh']

/-- Witness for C8: with Alice as admin and the contract paused, a deposit
fails with `ContractPaused`, Bob cannot unpause, and after Alice unpauses a
deposit succeeds. -/
theorem pause_gating_witness :
    deposit tokenA 5 bobAddr [] { emptyState with admin := some alice, paused := true } =
      ({ emptyState with admin := some alice, paused := true },
        .error .ContractPaused) ∧
    set_paused bobAddr false { emptyState with admin := some alice, paused := true } =
      ({ emptyState with admin := some alice, paused := true },
        .error .Unauthorized) ∧
    (deposit tokenA 5 bobAddr []
        (set_paused alice false
          { emptyState with admin := some alice, paused := true }).1).2 =
      .ok (sha256 (serializeAddress bobAddr ++ i128ToBytesBE 5 ++ [])) :=
  ⟨pause_gating.1 { emptyState with admin := some alice, paused := true }
      tokenA 5 bobAddr [] rfl,
   pause_gating.2.2.2.2.1 { emptyState with admin := some alice, paused := true }
      bobAddr false (fun adm hadm => by
        have : adm = alice := by simpa using hadm.symm
        subst this
        decide),
   (pause_gating.2.2.2.2.2.2 { emptyState with admin := some alice, paused := true }
      alice tokenA bobAddr 5 [] _ rfl (by decide) rfl rfl).2⟩

/-- C9: contrary to the claim that `parsePaymentLink` is total and never
throws, the embedded parser propagates an uncaught `URIError` out of
`decodeURIComponent` for a link whose memo percent-decodes (once, inside
`URLSearchParams`) to a bare `%`. -/
theorem parsePaymentLink_throws_uriError :
    parsePaymentLink "https://quickex.to/alice?amount=1&memo=%25" =
      .error .uriError := by
  decide

/-- C10: the backend amount validator returns true exactly on non-NaN number
values lying between 0.0000001 and 1000000 inclusive. -/
theorem stellarAmountValidate_iff (v : JSValue) :
    stellarAmountValidate v = true ↔
      ∃ n : JSNum, v = .num n ∧ jsIsNaN n = false ∧
        jsLe (.fin STELLAR_AMOUNT_MIN) n = true ∧
        jsLe n (.fin STELLAR_AMOUNT_MAX) = true := by
  cases v with
  | num n =>
    cases hn : jsIsNaN n with
    | true => simp [stellarAmountValidate, hn]
    | false => simp [stellarAmountValidate, hn]
  | str s => simp [stellarAmountValidate]
  | boolean b => simp [stellarAmountValidate]
  | nullV => simp [stellarAmountValidate]
  | undef => simp [stellarAmountValidate]
